import Mathlib

/-!
Verification of the multi-channel LED / servo PWM scheduling engine.

The development shallowly embeds three source files:
* `Main` — the multi-LED breathing program (`main.c`): waveform generation,
  pulse-width derivation, the in-place bubble sort of the channel array, and
  the per-cycle counter.
* `Nano` — the trigger-driven servo variant for the Arduino Nano Every:
  wraparound-safe waiting on `micros()`, centered pulse edges, and the
  cosine-ease transition.
* `Trigger` — the AVR trigger-driven variant: duty derivation with the
  unsigned-negation branch for the opening direction.

C `float` arithmetic is idealised as real arithmetic (`sinf`/`cosf` become
`Real.sin`/`Real.cos`); fixed-width unsigned machine arithmetic is embedded as
`Nat` arithmetic with explicit reduction modulo `2^16` or `2^32`; the
`float → uint16_t`/`uint32_t` casts of nonnegative values become
`Int.toNat ∘ Int.floor` (truncation toward zero).
-/

namespace Main

/-- `FRAME_RATE` from main.c. -/
def FRAME_RATE : ℕ := 100

/-- `BPM` from main.c. -/
def BPM : ℕ := 45

/-- `N_LEDS` from main.c: the number of entries of `PIN_NAMES`. -/
def N_LEDS : ℕ := 4

/-- `MIN_LUMINOSITY_PERCENT` from main.c. -/
def MIN_LUMINOSITY_PERCENT : ℕ := 10

/-- `MAX_LUMINOSITY_PERCENT` from main.c. -/
def MAX_LUMINOSITY_PERCENT : ℕ := 90

/-- `CLOCKS_PER_FRAME` from main.c: `2666666ULL / FRAME_RATE`. -/
def CLOCKS_PER_FRAME : ℕ := 2666666 / FRAME_RATE

/-- `PERIOD` from main.c: `CLOCKS_PER_FRAME - 1ULL`. -/
def PERIOD : ℕ := CLOCKS_PER_FRAME - 1

/-- `HALF_PERIOD` from main.c: `PERIOD >> 1U`. -/
def HALF_PERIOD : ℕ := PERIOD / 2

/-- `PLUS_MINUS_MIN` from main.c, parametrised by the minimum luminosity
percent: `((MIN_LUMINOSITY_PERCENT * HALF_PERIOD) + 50ULL) / 100ULL`. -/
def plusMinusMin (minPct : ℕ) : ℕ := (minPct * HALF_PERIOD + 50) / 100

/-- `PLUS_MINUS_MAX` from main.c, parametrised by the maximum luminosity
percent: `((MAX_LUMINOSITY_PERCENT * HALF_PERIOD) + 50ULL) / 100ULL`. -/
def plusMinusMax (maxPct : ℕ) : ℕ := (maxPct * HALF_PERIOD + 50) / 100

/-- `PLUS_MINUS_RANGE` from main.c: `PLUS_MINUS_MAX - PLUS_MINUS_MIN`. -/
def plusMinusRange (minPct maxPct : ℕ) : ℕ := plusMinusMax maxPct - plusMinusMin minPct

/-- `PERIOD_IN_CYCLES` from main.c: `(60ULL * FRAME_RATE) / BPM`. -/
def PERIOD_IN_CYCLES : ℕ := 60 * FRAME_RATE / BPM

/-- `luminosity` from main.c:
`0.5F * (1.F + sinf(6.2831853072 * percent_of_cycle + id))`. -/
noncomputable def luminosity (percent_of_cycle : ℝ) (id : ℕ) : ℝ :=
  0.5 * (1 + Real.sin (6.2831853072 * percent_of_cycle + id))

/-- The pulse-width assignment of `recalculate_pulse_widths` in main.c for one
channel, given a luminosity level:
`PLUS_MINUS_MIN + (uint16_t)(PLUS_MINUS_RANGE * luminosity(...))`, stored in a
`uint16_t` field. -/
noncomputable def pulseWidthOf (minPct maxPct : ℕ) (level : ℝ) : ℕ :=
  (plusMinusMin minPct + (⌊(plusMinusRange minPct maxPct : ℝ) * level⌋).toNat) % 65536

/-- `struct led` from main.c. -/
structure led where
  pulse_width : ℕ
  id : ℕ
deriving DecidableEq

/-- Ordering of channel entries by stored pulse width. -/
def wLE (a b : led) : Prop := a.pulse_width ≤ b.pulse_width

instance : IsTrans led wLE := ⟨fun _ _ _ h h' => Nat.le_trans h h'⟩

instance : DecidableRel wLE := fun a b => Nat.decLe a.pulse_width b.pulse_width

/-- One comparison-and-swap step of the inner loop of `sort_pulse_widths`:
the element `x` at index `i - 1` meets the already-processed suffix (whose
head is the current element at index `i`); they are swapped when the later
entry's `pulse_width` is strictly smaller, and the `changed` flag is raised
exactly when the source sets `changed = 1`. -/
def bubbleStep (x : led) : List led × Bool → List led × Bool
  | ([], _) => ([x], false)
  | (y :: t, c) =>
    if y.pulse_width < x.pulse_width then (y :: x :: t, true) else (x :: y :: t, c)

/-- One full inner `do { ... } while (--i)` pass of `sort_pulse_widths`,
processing adjacent pairs from the high end of the array down to index 0 and
returning the updated array together with the `changed` flag. -/
def passFlag : List led → List led × Bool
  | [] => ([], false)
  | x :: xs => bubbleStep x (passFlag xs)

/-- Number of inversions (pairs out of order by `pulse_width`); the
termination measure for the outer `do { ... } while (changed)` loop. -/
def invCount : List led → ℕ
  | [] => 0
  | x :: xs => xs.countP (fun z => decide (z.pulse_width < x.pulse_width)) + invCount xs

/-- The outer `do { ... } while (changed)` loop of `sort_pulse_widths`,
with explicit fuel. -/
def sortGo : ℕ → List led → List led
  | 0, l => l
  | fuel + 1, l =>
    let p := passFlag l
    if p.2 then sortGo fuel p.1 else p.1

/-- `sort_pulse_widths` from main.c.  The fuel `invCount l + 1` is enough for
the `changed`-driven loop to reach its fixpoint, because every pass that sets
`changed` strictly decreases `invCount`. -/
def sort_pulse_widths (l : List led) : List led := sortGo (invCount l + 1) l

/-- `recalculate_pulse_widths` from main.c, abstracted over the per-channel
width function `w` (in the source, `w` is
`fun id => PLUS_MINUS_MIN + (uint16_t)(PLUS_MINUS_RANGE * luminosity(percent_of_cycle, id))`):
each slot `i` receives `w (pulse_widths[i].id)`, then the array is sorted. -/
def recalcWith (w : ℕ → ℕ) (l : List led) : List led :=
  sort_pulse_widths (l.map fun e => { pulse_width := w e.id, id := e.id })

/-- The actual per-channel width function of `recalculate_pulse_widths` at a
given `cycle_count`, with the luminosity percents of main.c. -/
noncomputable def levelWidth (cycle_count id : ℕ) : ℕ :=
  pulseWidthOf MIN_LUMINOSITY_PERCENT MAX_LUMINOSITY_PERCENT
    (luminosity ((cycle_count : ℝ) / (PERIOD_IN_CYCLES : ℝ)) id)

/-- `recalculate_pulse_widths` from main.c at a given `cycle_count`. -/
noncomputable def recalculate_pulse_widths (cycle_count : ℕ) (l : List led) : List led :=
  recalcWith (levelWidth cycle_count) l

/-- The channel array before `init_pulse_widths` runs: static storage is
zero-initialised, and the loop writes `pulse_widths[id].id = id`. -/
def initLeds : List led := (List.range N_LEDS).map fun i => { pulse_width := 0, id := i }

/-- `init_pulse_widths` from main.c: set the ids, then recompute (with
`cycle_count = 0`, as in `main`). -/
noncomputable def init_pulse_widths : List led := recalculate_pulse_widths 0 initLeds

/-- The rising-edge moment in `main`: `HALF_PERIOD - pulse_widths[i].pulse_width`
as a `uint16_t`. -/
def risingMoment (pw : ℕ) : ℕ := (HALF_PERIOD + (65536 - pw % 65536)) % 65536

/-- The falling-edge moment in `main`: `HALF_PERIOD + pulse_widths[i].pulse_width`
as a `uint16_t`. -/
def fallingMoment (pw : ℕ) : ℕ := (HALF_PERIOD + pw) % 65536

/-- The cycle-count update at the bottom of the main loop:
`if (PERIOD_IN_CYCLES == ++cycle_count) { cycle_count = 0; }` on a `uint16_t`. -/
def cycleStep (c : ℕ) : ℕ :=
  if (c + 1) % 65536 = PERIOD_IN_CYCLES then 0 else (c + 1) % 65536

end Main

namespace Nano

/-- `RANGE` from the Nano Every variant: 500 ticks of plus-or-minus travel. -/
def RANGE : ℕ := 500

/-- `OPEN_US` from the Nano Every variant: travel duration in microseconds. -/
def OPEN_US : ℕ := 1000000

/-- `PERIOD_US` from the Nano Every variant. -/
def PERIOD_US : ℕ := 20000

/-- `MIN_PULSE` from the Nano Every variant. -/
def MIN_PULSE : ℕ := 1000

/-- `MAX_PULSE` from the Nano Every variant. -/
def MAX_PULSE : ℕ := 2000

/-- `HALF_MIN_PULSE` from the Nano Every variant: `MIN_PULSE >> 1`. -/
def HALF_MIN_PULSE : ℕ := MIN_PULSE / 2

/-- `SIGN_BIT` from the Nano Every variant: `1 << 31` as a `uint32_t`. -/
def SIGN_BIT : ℕ := 2 ^ 31

/-- The modulus of the 32-bit `micros()` counter. -/
def W32 : ℕ := 2 ^ 32

/-- 32-bit unsigned subtraction, as performed on `uint32_t` values. -/
def sub32 (a b : ℕ) : ℕ := (a % W32 + (W32 - b % W32)) % W32

/-- The wait-loop test of `send_pulse`: `tmp = micros(); tmp -= us;` repeated
`while (tmp & SIGN_BIT)`.  The wait is over — the target time `us` has
arrived — exactly when the sign bit of the 32-bit difference is clear. -/
def hasArrived (live target : ℕ) : Bool := (sub32 live target &&& SIGN_BIT) == 0

/-- The rising-edge target in `send_pulse`: `us = center_us; us -= dus;`. -/
def pulseStart (center_us dus : ℕ) : ℕ := sub32 center_us dus

/-- The falling-edge target in `send_pulse`: `us = center_us; us += dus;`. -/
def pulseEnd (center_us dus : ℕ) : ℕ := (center_us + dus) % W32

/-- The cosine-ease shape computed in `loop`:
`f = pos; f *= MULTIPLIER; f = cosf(f); f += 1.f; f *= 0.5f;`
with `MULTIPLIER = PI / OPEN_US`. -/
noncomputable def easeF (pos : ℕ) : ℝ :=
  0.5 * (Real.cos ((pos : ℝ) * (Real.pi / (OPEN_US : ℝ))) + 1)

/-- The level computed by `loop` at elapsed time `pos` since the trigger, in
the direction `opn` (the `open` flag after the toggle): once `pos >= OPEN_US`
the level locks at 1 (`open`) or 0 (closed); before that it follows the
cosine ease, complemented in the `open` direction. -/
noncomputable def levelAt (opn : Bool) (pos : ℕ) : ℝ :=
  if OPEN_US ≤ pos then (if opn then 1 else 0)
  else if opn then 1 - easeF pos else easeF pos

/-- The trigger response in `loop`: `open = !open;`. -/
def triggerToggle (opn : Bool) : Bool := !opn

end Nano

namespace Trigger

/-- `PERIOD` from the AVR trigger variant. -/
def PERIOD : ℕ := 26667

/-- `MILLISECOND` from the AVR trigger variant: `(PERIOD + 10ULL) / 20ULL`. -/
def MILLISECOND : ℕ := (PERIOD + 10) / 20

/-- `MIN_PULSE` from the AVR trigger variant. -/
def MIN_PULSE : ℕ := MILLISECOND

/-- `PULSE_RANGE` from the AVR trigger variant. -/
def PULSE_RANGE : ℕ := MILLISECOND

/-- `TIME_TO_OPEN` from the AVR trigger variant. -/
def TIME_TO_OPEN : ℕ := 50000

/-- The value of `duty` right after `duty = f;` in the inner loop of `main`
in the AVR trigger variant, at tick count `t`:
`f = counter; f *= (PI / TIME_TO_OPEN); f = cosf(f); f += 1; f *= (0.5 * PULSE_RANGE); duty = f;`
(a `float → uint16_t` conversion of a nonnegative value). -/
noncomputable def dutyRaw (t : ℕ) : ℕ :=
  (⌊(Real.cos ((t : ℝ) * (3.14159265358979323846 / (TIME_TO_OPEN : ℝ))) + 1)
      * (0.5 * (PULSE_RANGE : ℝ))⌋).toNat % 65536

/-- The final duty written to `TCA0.SINGLE.CMP0BUF` by the inner loop of
`main` in the AVR trigger variant: either
`duty = -duty; duty += (MIN_PULSE + PULSE_RANGE);` (opening, with unsigned
16-bit negation) or `duty += MIN_PULSE;` (closing). -/
noncomputable def dutyOf (opn : Bool) (t : ℕ) : ℕ :=
  if opn then ((65536 - dutyRaw t) % 65536 + (MIN_PULSE + PULSE_RANGE)) % 65536
  else (dutyRaw t + MIN_PULSE) % 65536

end Trigger

namespace Main

/-- The spec's scheduler formula, as the spec states it with `round`:
"pulse_width = MIN_PULSE + round(level × PULSE_RANGE), clamped to
[MIN_PULSE, MAX_PULSE]" — in main.c terms, MIN_PULSE is `PLUS_MINUS_MIN`,
PULSE_RANGE is `PLUS_MINUS_RANGE` and MAX_PULSE is `PLUS_MINUS_MAX`. -/
noncomputable def specPulseWidthRound (minPct maxPct : ℕ) (level : ℝ) : ℕ :=
  min (plusMinusMax maxPct)
    (max (plusMinusMin minPct)
      (plusMinusMin minPct + (round (level * (plusMinusRange minPct maxPct : ℝ))).toNat))

/-- The spec's scheduler formula amended to what the code computes:
pulse_width = MIN_PULSE + trunc(level × PULSE_RANGE) (truncation toward zero
instead of rounding), clamped to [MIN_PULSE, MAX_PULSE]. -/
noncomputable def specPulseWidthTrunc (minPct maxPct : ℕ) (level : ℝ) : ℕ :=
  min (plusMinusMax maxPct)
    (max (plusMinusMin minPct)
      (plusMinusMin minPct + (⌊level * (plusMinusRange minPct maxPct : ℝ)⌋).toNat))

end Main

namespace Main

theorem bubbleStep_fst_perm (x : led) (p : List led × Bool) :
    (bubbleStep x p).1.Perm (x :: p.1) := by
  obtain ⟨ys, c⟩ := p
  cases ys with
  | nil => simp [bubbleStep]
  | cons y t =>
    by_cases h : y.pulse_width < x.pulse_width
    · simpa [bubbleStep, h] using List.Perm.swap x y t
    · simp [bubbleStep, h]

theorem passFlag_fst_perm (l : List led) : (passFlag l).1.Perm l := by
  induction l with
  | nil => simp [passFlag]
  | cons x xs ih => exact (bubbleStep_fst_perm x (passFlag xs)).trans (ih.cons x)

theorem passFlag_eq_false (l : List led) (h : (passFlag l).2 = false) :
    (passFlag l).1 = l ∧ List.Chain' wLE l := by
  induction l with
  | nil => exact ⟨rfl, List.chain'_nil⟩
  | cons x xs ih =>
    have hx : passFlag (x :: xs) = bubbleStep x (passFlag xs) := rfl
    rcases hp : passFlag xs with ⟨ys, c⟩
    rw [hp] at hx ih
    cases ys with
    | nil =>
      have hxs : xs = [] := by
        have p := passFlag_fst_perm xs
        rw [hp] at p
        exact List.Perm.eq_nil p.symm
      subst hxs
      exact ⟨by rw [hx]; rfl, by simp⟩
    | cons y t =>
      by_cases hlt : y.pulse_width < x.pulse_width
      · rw [hx] at h
        simp [bubbleStep, hlt] at h
      · rw [hx] at h ⊢
        simp only [bubbleStep, if_neg hlt] at h ⊢
        obtain ⟨he, hch⟩ := ih h
        have he' : y :: t = xs := he
        refine ⟨by rw [he'], ?_⟩
        rw [← he']
        exact List.chain'_cons.mpr ⟨Nat.le_of_not_lt hlt, by rw [he']; exact hch⟩

theorem passFlag_of_chain (l : List led) (h : List.Chain' wLE l) :
    passFlag l = (l, false) := by
  induction l with
  | nil => rfl
  | cons x xs ih =>
    have hx : passFlag (x :: xs) = bubbleStep x (passFlag xs) := rfl
    rw [hx, ih h.tail]
    cases xs with
    | nil => rfl
    | cons y t =>
      have hxy : wLE x y := (List.chain'_cons.mp h).1
      simp [bubbleStep, Nat.not_lt.mpr hxy]

theorem passFlag_invCount (l : List led) :
    invCount (passFlag l).1 ≤ invCount l ∧
      ((passFlag l).2 = true → invCount (passFlag l).1 < invCount l) := by
  induction l with
  | nil => simp [passFlag]
  | cons x xs ih =>
    have hx : passFlag (x :: xs) = bubbleStep x (passFlag xs) := rfl
    rcases hp : passFlag xs with ⟨ys, c⟩
    rw [hp] at hx ih
    have hperm : ys.Perm xs := by
      have p := passFlag_fst_perm xs
      rw [hp] at p
      exact p
    cases ys with
    | nil =>
      have hxs : xs = [] := List.Perm.eq_nil hperm.symm
      subst hxs
      have hc : c = false := by
        have := congrArg Prod.snd hp
        simpa [passFlag] using this.symm
      subst hc
      rw [hx]
      simp [bubbleStep, invCount]
    | cons y t =>
      have hcx : xs.countP (fun z => decide (z.pulse_width < x.pulse_width))
          = (y :: t).countP (fun z => decide (z.pulse_width < x.pulse_width)) :=
        (hperm.countP_eq _).symm
      by_cases hlt : y.pulse_width < x.pulse_width
      · rw [hx]
        simp only [bubbleStep, if_pos hlt]
        have key : invCount (y :: x :: t) < invCount (x :: xs) := by
          have h1 : invCount (y :: t) ≤ invCount xs := ih.1
          have hxy : ¬x.pulse_width < y.pulse_width := Nat.lt_asymm hlt
          simp only [invCount] at h1 ⊢
          rw [hcx]
          simp [List.countP_cons, hlt, hxy] at h1 ⊢
          omega
        exact ⟨Nat.le_of_lt key, fun _ => key⟩
      · rw [hx]
        simp only [bubbleStep, if_neg hlt]
        constructor
        · have h1 : invCount (y :: t) ≤ invCount xs := ih.1
          simp only [invCount] at h1 ⊢
          rw [hcx]
          simp [List.countP_cons, hlt] at h1 ⊢
          omega
        · intro hc
          have h2 : invCount (y :: t) < invCount xs := ih.2 hc
          simp only [invCount] at h2 ⊢
          rw [hcx]
          simp [List.countP_cons, hlt] at h2 ⊢
          omega

theorem sortGo_perm (fuel : ℕ) : ∀ l : List led, (sortGo fuel l).Perm l := by
  induction fuel with
  | zero => intro l; simp [sortGo]
  | succ n ih =>
    intro l
    simp only [sortGo]
    rcases hp : passFlag l with ⟨l', c⟩
    have hperm : l'.Perm l := by
      have p := passFlag_fst_perm l
      rw [hp] at p
      exact p
    cases c
    · simpa using hperm
    · simpa using (ih l').trans hperm

theorem sortGo_sorted (fuel : ℕ) : ∀ l : List led, invCount l < fuel →
    List.Chain' wLE (sortGo fuel l) := by
  induction fuel with
  | zero => intro l h; exact absurd h (Nat.not_lt_zero _)
  | succ n ih =>
    intro l h
    simp only [sortGo]
    rcases hp : passFlag l with ⟨l', c⟩
    cases c
    · obtain ⟨he, hch⟩ := passFlag_eq_false l (by rw [hp])
      rw [hp] at he
      have he' : l' = l := he
      simpa [he'] using hch
    · have hlt : invCount l' < invCount l := by
        have h2 := (passFlag_invCount l).2 (by rw [hp])
        rw [hp] at h2
        exact h2
      simpa using ih l' (by omega)

theorem sort_pw_sorted (l : List led) : List.Chain' wLE (sort_pulse_widths l) :=
  sortGo_sorted _ l (Nat.lt_succ_self _)

theorem sort_pw_perm (l : List led) : (sort_pulse_widths l).Perm l :=
  sortGo_perm _ l

theorem sort_pw_of_chain (l : List led) (h : List.Chain' wLE l) :
    sort_pulse_widths l = l := by
  show sortGo (invCount l + 1) l = l
  simp only [sortGo]
  rw [passFlag_of_chain l h]
  simp

theorem recalcWith_mem (w : ℕ → ℕ) (l : List led) (e : led) (he : e ∈ recalcWith w l) :
    e = { pulse_width := w e.id, id := e.id } := by
  have hmem : e ∈ l.map fun a => ({ pulse_width := w a.id, id := a.id } : led) :=
    (sort_pw_perm _).subset he
  obtain ⟨a, _, ha⟩ := List.mem_map.mp hmem
  rw [← ha]

theorem recalcWith_idem (w : ℕ → ℕ) (l : List led) :
    recalcWith w (recalcWith w l) = recalcWith w l := by
  have hmap : ((recalcWith w l).map fun e => ({ pulse_width := w e.id, id := e.id } : led))
      = recalcWith w l := by
    have hcongr : ∀ e ∈ recalcWith w l,
        ({ pulse_width := w e.id, id := e.id } : led) = e :=
      fun e he => (recalcWith_mem w l e he).symm
    calc ((recalcWith w l).map fun e => ({ pulse_width := w e.id, id := e.id } : led))
        = (recalcWith w l).map id := List.map_congr_left hcongr
      _ = recalcWith w l := List.map_id _
  show sort_pulse_widths _ = _
  rw [hmap]
  exact sort_pw_of_chain _ (sort_pw_sorted _)

theorem recalcWith_map_id_perm (w : ℕ → ℕ) (l : List led) :
    ((recalcWith w l).map led.id).Perm (l.map led.id) := by
  have h1 := (sort_pw_perm (l.map fun e => ({ pulse_width := w e.id, id := e.id } : led))).map led.id
  simpa [List.map_map, Function.comp] using h1

end Main

namespace Main

/-- Claim C2: after every call to the recompute operation
(`recalculate_pulse_widths`, which ends by calling `sort_pulse_widths`), the
channel array is sorted ascending by `pulse_width` — for every reachable prior
state of the array, including reverse-sorted input — and any two entries with
equal `pulse_width` appear with the lower channel id first.  The program's
fresh widths are pairwise distinct at every reachable `cycle_count` (their
minimum integer gap is 1), so the equal-width clause is vacuous there; this is
captured by the pairwise-distinct-widths hypothesis `hw`, under which the
recomputed array is in strictly increasing width order and hence sorted by
(pulse_width, channel id).  The width-sortedness conjuncts hold for every
prior state unconditionally. -/
theorem recalc_schedule_sorted (w : ℕ → ℕ) (cycle_count : ℕ) (l : List led)
    (hw : (l.map fun e => w e.id).Pairwise (· ≠ ·)) :
    (recalcWith w l).Pairwise wLE
    ∧ (recalculate_pulse_widths cycle_count l).Pairwise wLE
    ∧ (recalcWith w l).Pairwise fun a b =>
        a.pulse_width < b.pulse_width
          ∨ (a.pulse_width = b.pulse_width ∧ a.id < b.id) := by
  have hsort : ∀ w' : ℕ → ℕ, (recalcWith w' l).Pairwise wLE :=
    fun w' => List.chain'_iff_pairwise.mp (sort_pw_sorted _)
  refine ⟨hsort w, hsort _, ?_⟩
  have hmapped : (l.map fun e => ({ pulse_width := w e.id, id := e.id } : led)).Pairwise
      fun a b => a.pulse_width ≠ b.pulse_width := by
    rw [List.pairwise_map]
    exact List.pairwise_map.mp hw
  have hne : (recalcWith w l).Pairwise fun a b => a.pulse_width ≠ b.pulse_width :=
    ((sort_pw_perm _).pairwise_iff fun hab heq => hab heq.symm).mpr hmapped
  exact ((hsort w).and hne).imp fun h => Or.inl (lt_of_le_of_ne h.1 h.2)

/-- Witness for claim C2 at `w = id`, `cycle_count = 0`, `l = [{5,1},{7,0}]`
(distinct ids, hence pairwise-distinct fresh widths). -/
theorem recalc_schedule_sorted_witness :
    (([⟨5, 1⟩, ⟨7, 0⟩] : List led).map fun e => (fun i => i) e.id).Pairwise (· ≠ ·)
    ∧ ((recalcWith (fun i => i) [⟨5, 1⟩, ⟨7, 0⟩]).Pairwise wLE
      ∧ (recalculate_pulse_widths 0 [⟨5, 1⟩, ⟨7, 0⟩]).Pairwise wLE
      ∧ (recalcWith (fun i => i) [⟨5, 1⟩, ⟨7, 0⟩]).Pairwise fun a b =>
          a.pulse_width < b.pulse_width
            ∨ (a.pulse_width = b.pulse_width ∧ a.id < b.id)) :=
  ⟨by decide, recalc_schedule_sorted (fun i => i) 0 [⟨5, 1⟩, ⟨7, 0⟩] (by decide)⟩

/-- Claim C9: recompute is idempotent — running `recalculate_pulse_widths`
twice from the same phase state (same `cycle_count` and same channel array)
yields exactly the same pulse widths and the same array order as running it
once. -/
theorem recalculate_idempotent (cycle_count : ℕ) (l : List led) :
    recalculate_pulse_widths cycle_count (recalculate_pulse_widths cycle_count l)
      = recalculate_pulse_widths cycle_count l :=
  recalcWith_idem _ l

/-- Claim C10: the channel array stays a permutation of the channel ids —
every entry of a recomputed array carries the width computed from its own id,
recomputation and sorting permute the entries (so the multiset of ids is
preserved), and after `init_pulse_widths` the ids are exactly a permutation of
`0 .. N_LEDS - 1`. -/
theorem pulse_widths_ids_invariant (w : ℕ → ℕ) (cycle_count : ℕ) (l : List led)
    (e : led) (he : e ∈ recalcWith w l) :
    e.pulse_width = w e.id
    ∧ ((recalcWith w l).map led.id).Perm (l.map led.id)
    ∧ (sort_pulse_widths l).Perm l
    ∧ ((recalculate_pulse_widths cycle_count l).map led.id).Perm (l.map led.id)
    ∧ (init_pulse_widths.map led.id).Perm (List.range N_LEDS) := by
  refine ⟨?_, recalcWith_map_id_perm w l, sort_pw_perm l,
    recalcWith_map_id_perm _ l, ?_⟩
  · exact congrArg led.pulse_width (recalcWith_mem w l e he)
  · have h1 := recalcWith_map_id_perm (levelWidth 0) initLeds
    have h2 : initLeds.map led.id = List.range N_LEDS := by
      simp [initLeds, List.map_map, Function.comp_def]
    exact h1.trans (by rw [h2])

end Main

/-- Witness for claim C10 at `w = id`, `cycle_count = 0`, `l = [{3,0}]`,
`e = {0,0}`. -/
theorem pulse_widths_ids_invariant_witness :
    ((⟨0, 0⟩ : Main.led) ∈ Main.recalcWith (fun i => i) [⟨3, 0⟩])
    ∧ ((⟨0, 0⟩ : Main.led).pulse_width = (fun i => i) (⟨0, 0⟩ : Main.led).id
      ∧ ((Main.recalcWith (fun i => i) [⟨3, 0⟩]).map Main.led.id).Perm
          (([⟨3, 0⟩] : List Main.led).map Main.led.id)
      ∧ (Main.sort_pulse_widths [⟨3, 0⟩]).Perm [⟨3, 0⟩]
      ∧ ((Main.recalculate_pulse_widths 0 [⟨3, 0⟩]).map Main.led.id).Perm
          (([⟨3, 0⟩] : List Main.led).map Main.led.id)
      ∧ (Main.init_pulse_widths.map Main.led.id).Perm (List.range Main.N_LEDS)) :=
  ⟨by decide, Main.pulse_widths_ids_invariant (fun i => i) 0 [⟨3, 0⟩] ⟨0, 0⟩ (by decide)⟩

/-- Claim C8: the cycle counter is advanced once per hardware period by
`cycleStep` and wraps to 0 on reaching
`PERIOD_IN_CYCLES = (60 × FRAME_RATE) / BPM` (integer division), so iterating
the step from 0 keeps `cycle_count ∈ [0, PERIOD_IN_CYCLES)` as an invariant of
every loop iteration. -/
theorem cycle_count_invariant :
    (∀ n : ℕ, Main.cycleStep^[n] 0 < Main.PERIOD_IN_CYCLES)
    ∧ Main.PERIOD_IN_CYCLES = 60 * Main.FRAME_RATE / Main.BPM
    ∧ Main.cycleStep (Main.PERIOD_IN_CYCLES - 1) = 0 := by
  refine ⟨?_, rfl, by decide⟩
  intro n
  induction n with
  | zero => simp [Main.PERIOD_IN_CYCLES, Main.FRAME_RATE, Main.BPM]
  | succ k ih =>
    rw [Function.iterate_succ_apply']
    revert ih
    generalize Main.cycleStep^[k] 0 = c
    intro hc
    unfold Main.cycleStep Main.PERIOD_IN_CYCLES Main.FRAME_RATE Main.BPM at *
    split <;> omega

/-- Claim C6: under the centered dual-edge discipline every pulse is centered
at a fixed anchor — in main.c the rising moment is
`HALF_PERIOD - pulse_width` and the falling moment `HALF_PERIOD + pulse_width`
so the two moments are symmetric about `HALF_PERIOD`; in the Nano trigger
variant the edges `center_us - dus` and `center_us + dus` are symmetric about
`center_us` modulo the 32-bit counter. -/
theorem centered_dual_edge (pw center_us dus : ℕ) (h : pw ≤ Main.HALF_PERIOD) :
    Main.risingMoment pw = Main.HALF_PERIOD - pw
    ∧ Main.fallingMoment pw = Main.HALF_PERIOD + pw
    ∧ Main.risingMoment pw + Main.fallingMoment pw = 2 * Main.HALF_PERIOD
    ∧ Main.HALF_PERIOD - Main.risingMoment pw = Main.fallingMoment pw - Main.HALF_PERIOD
    ∧ (Nano.pulseStart center_us dus + Nano.pulseEnd center_us dus) % Nano.W32
        = (2 * center_us) % Nano.W32 := by
  unfold Main.risingMoment Main.fallingMoment Main.HALF_PERIOD Main.PERIOD
    Main.CLOCKS_PER_FRAME Main.FRAME_RATE at *
  unfold Nano.pulseStart Nano.pulseEnd Nano.sub32 Nano.W32
  refine ⟨?_, ?_, ?_, ?_, ?_⟩ <;> omega

/-- Witness for claim C6 at `pw = 1000`, `center_us = 7`, `dus = 3`. -/
theorem centered_dual_edge_witness :
    1000 ≤ Main.HALF_PERIOD
    ∧ (Main.risingMoment 1000 = Main.HALF_PERIOD - 1000
      ∧ Main.fallingMoment 1000 = Main.HALF_PERIOD + 1000
      ∧ Main.risingMoment 1000 + Main.fallingMoment 1000 = 2 * Main.HALF_PERIOD
      ∧ Main.HALF_PERIOD - Main.risingMoment 1000
          = Main.fallingMoment 1000 - Main.HALF_PERIOD
      ∧ (Nano.pulseStart 7 3 + Nano.pulseEnd 7 3) % Nano.W32
          = (2 * 7) % Nano.W32) :=
  ⟨by decide, centered_dual_edge 1000 7 3 (by decide)⟩

/-- Claim C4: the waveform generators are pure functions with output in
[0, 1]: `luminosity` in main.c for every phase and channel id, and the
cosine-ease level of the Nano trigger variant for every direction and every
elapsed time. -/
theorem waveform_output_unit_interval (p : ℝ) (id : ℕ) (opn : Bool) (t : ℕ) :
    (0 ≤ Main.luminosity p id ∧ Main.luminosity p id ≤ 1)
    ∧ (0 ≤ Nano.levelAt opn t ∧ Nano.levelAt opn t ≤ 1) := by
  have hs1 := Real.neg_one_le_sin (6.2831853072 * p + id)
  have hs2 := Real.sin_le_one (6.2831853072 * p + id)
  have hc1 := Real.neg_one_le_cos ((t : ℝ) * (Real.pi / (Nano.OPEN_US : ℝ)))
  have hc2 := Real.cos_le_one ((t : ℝ) * (Real.pi / (Nano.OPEN_US : ℝ)))
  unfold Main.luminosity Nano.levelAt Nano.easeF
  refine ⟨⟨by linarith, by linarith⟩, ?_⟩
  split_ifs <;> constructor <;> linarith

theorem toNat_floor_mul_le (r : ℕ) (level : ℝ) (h0 : 0 ≤ level) (h1 : level ≤ 1) :
    (⌊(r : ℝ) * level⌋).toNat ≤ r := by
  have hle : (r : ℝ) * level ≤ (r : ℝ) := by
    nlinarith [Nat.cast_nonneg (α := ℝ) r]
  have hf : ⌊(r : ℝ) * level⌋ ≤ ⌊(r : ℝ)⌋ := Int.floor_le_floor hle
  rw [Int.floor_natCast] at hf
  omega

/-- Claim C1: for valid init-time bounds
`0 ≤ MIN_LUMINOSITY_PERCENT ≤ MAX_LUMINOSITY_PERCENT ≤ 100` and any fresh
level in [0, 1], the stored pulse width of main.c lies in
`[PLUS_MINUS_MIN, PLUS_MINUS_MAX]`; and in the AVR trigger variant the duty
lies in `[MIN_PULSE, MIN_PULSE + PULSE_RANGE]` for every tick count, in both
the closing branch and the unsigned-negation opening branch. -/
theorem pulse_width_in_bounds (minPct maxPct : ℕ) (level : ℝ) (opn : Bool) (t : ℕ)
    (hpm : minPct ≤ maxPct) (hp100 : maxPct ≤ 100)
    (h0 : 0 ≤ level) (h1 : level ≤ 1) :
    (Main.plusMinusMin minPct ≤ Main.pulseWidthOf minPct maxPct level
      ∧ Main.pulseWidthOf minPct maxPct level ≤ Main.plusMinusMax maxPct)
    ∧ (Trigger.MIN_PULSE ≤ Trigger.dutyOf opn t
      ∧ Trigger.dutyOf opn t ≤ Trigger.MIN_PULSE + Trigger.PULSE_RANGE) := by
  constructor
  · have hk := toNat_floor_mul_le (Main.plusMinusRange minPct maxPct) level h0 h1
    have hR : Main.plusMinusRange minPct maxPct
        = Main.plusMinusMax maxPct - Main.plusMinusMin minPct := rfl
    have hm1 : Main.plusMinusMin minPct ≤ Main.plusMinusMax maxPct := by
      have hmul : minPct * Main.HALF_PERIOD ≤ maxPct * Main.HALF_PERIOD :=
        mul_le_mul_right' hpm Main.HALF_PERIOD
      exact Nat.div_le_div_right (by omega)
    have hm2 : Main.plusMinusMax maxPct ≤ 13333 := by
      unfold Main.plusMinusMax Main.HALF_PERIOD Main.PERIOD Main.CLOCKS_PER_FRAME
        Main.FRAME_RATE
      omega
    unfold Main.pulseWidthOf
    constructor <;> omega
  · have hcos2 := Real.cos_le_one
      ((t : ℝ) * (3.14159265358979323846 / (Trigger.TIME_TO_OPEN : ℝ)))
    have hrange : (Trigger.PULSE_RANGE : ℝ) = 1333 := by
      norm_num [Trigger.PULSE_RANGE, Trigger.MILLISECOND, Trigger.PERIOD]
    have hfle : (Real.cos ((t : ℝ) * (3.14159265358979323846 / (Trigger.TIME_TO_OPEN : ℝ)))
        + 1) * (0.5 * (Trigger.PULSE_RANGE : ℝ)) ≤ 1333 := by
      rw [hrange]
      nlinarith
    have hd : Trigger.dutyRaw t ≤ 1333 := by
      unfold Trigger.dutyRaw
      have hfl : ⌊(Real.cos ((t : ℝ) * (3.14159265358979323846 / (Trigger.TIME_TO_OPEN : ℝ)))
          + 1) * (0.5 * (Trigger.PULSE_RANGE : ℝ))⌋ ≤ 1333 := by
        have := Int.floor_le_floor hfle
        simpa using this
      omega
    unfold Trigger.dutyOf Trigger.MIN_PULSE Trigger.PULSE_RANGE Trigger.MILLISECOND
      Trigger.PERIOD at *
    cases opn <;> simp only [if_true, if_false, Bool.false_eq_true, ite_true, ite_false] <;>
      constructor <;> omega

/-- Witness for claim C1 at `minPct = 10`, `maxPct = 90`, `level = 1/2`,
`opn = true`, `t = 0`. -/
theorem pulse_width_in_bounds_witness :
    ((10 : ℕ) ≤ 90 ∧ (90 : ℕ) ≤ 100 ∧ (0 : ℝ) ≤ 1 / 2 ∧ (1 / 2 : ℝ) ≤ 1)
    ∧ ((Main.plusMinusMin 10 ≤ Main.pulseWidthOf 10 90 (1 / 2)
        ∧ Main.pulseWidthOf 10 90 (1 / 2) ≤ Main.plusMinusMax 90)
      ∧ (Trigger.MIN_PULSE ≤ Trigger.dutyOf true 0
        ∧ Trigger.dutyOf true 0 ≤ Trigger.MIN_PULSE + Trigger.PULSE_RANGE)) :=
  ⟨⟨by norm_num, by norm_num, by norm_num, by norm_num⟩,
    pulse_width_in_bounds 10 90 (1 / 2) true 0 (by norm_num) (by norm_num)
      (by norm_num) (by norm_num)⟩

/-- Claim C5 (counterexample): at level 3/21332 with the default percents the
code's width is `PLUS_MINUS_MIN + trunc(RANGE × level) = 1333 + 1 = 1334`, but
the spec's round-based formula gives `1333 + round(1.5) = 1335`: the scheduler
does not round. -/
theorem round_formula_counterexample :
    Main.pulseWidthOf 10 90 (3 / 21332) ≠ Main.specPulseWidthRound 10 90 (3 / 21332) := by
  have hmin : Main.plusMinusMin 10 = 1333 := by decide
  have hmax : Main.plusMinusMax 90 = 11999 := by decide
  have hr : Main.plusMinusRange 10 90 = 10666 := by decide
  have h1 : Main.pulseWidthOf 10 90 (3 / 21332) = 1334 := by
    unfold Main.pulseWidthOf
    rw [hmin, hr]
    norm_num
  have h2 : Main.specPulseWidthRound 10 90 (3 / 21332) = 1335 := by
    unfold Main.specPulseWidthRound
    rw [hmin, hmax, hr]
    norm_num [round_eq]
    decide
  omega

/-- Claim C5 (amended): for every channel level in [0, 1] and valid luminosity
percents, the scheduler computes
pulse_width = MIN_PULSE + trunc(level × PULSE_RANGE) — truncation toward zero
rather than rounding — and this already equals the clamped spec formula, the
clamp to [MIN_PULSE, MAX_PULSE] being a no-op. -/
theorem pulse_width_formula_trunc (minPct maxPct : ℕ) (level : ℝ)
    (hpm : minPct ≤ maxPct) (hp100 : maxPct ≤ 100)
    (h0 : 0 ≤ level) (h1 : level ≤ 1) :
    Main.pulseWidthOf minPct maxPct level
      = Main.specPulseWidthTrunc minPct maxPct level := by
  have hk := toNat_floor_mul_le (Main.plusMinusRange minPct maxPct) level h0 h1
  have hR : Main.plusMinusRange minPct maxPct
      = Main.plusMinusMax maxPct - Main.plusMinusMin minPct := rfl
  have hm1 : Main.plusMinusMin minPct ≤ Main.plusMinusMax maxPct := by
    have hmul : minPct * Main.HALF_PERIOD ≤ maxPct * Main.HALF_PERIOD :=
      mul_le_mul_right' hpm Main.HALF_PERIOD
    exact Nat.div_le_div_right (by omega)
  have hm2 : Main.plusMinusMax maxPct ≤ 13333 := by
    unfold Main.plusMinusMax Main.HALF_PERIOD Main.PERIOD Main.CLOCKS_PER_FRAME
      Main.FRAME_RATE
    omega
  have hcomm : ⌊level * (Main.plusMinusRange minPct maxPct : ℝ)⌋
      = ⌊(Main.plusMinusRange minPct maxPct : ℝ) * level⌋ := by rw [mul_comm]
  unfold Main.pulseWidthOf Main.specPulseWidthTrunc
  rw [hcomm]
  omega

/-- Witness for claim C5 (amended) at `minPct = 10`, `maxPct = 90`,
`level = 1/2`. -/
theorem pulse_width_formula_trunc_witness :
    ((10 : ℕ) ≤ 90 ∧ (90 : ℕ) ≤ 100 ∧ (0 : ℝ) ≤ 1 / 2 ∧ (1 / 2 : ℝ) ≤ 1)
    ∧ Main.pulseWidthOf 10 90 (1 / 2) = Main.specPulseWidthTrunc 10 90 (1 / 2) :=
  ⟨⟨by norm_num, by norm_num, by norm_num, by norm_num⟩,
    pulse_width_formula_trunc 10 90 (1 / 2) (by norm_num) (by norm_num)
      (by norm_num) (by norm_num)⟩

theorem and_sign_eq_zero_iff (s : ℕ) (hs : s < 2 ^ 32) :
    s &&& Nano.SIGN_BIT = 0 ↔ s < 2 ^ 31 := by
  unfold Nano.SIGN_BIT
  rw [Nat.and_two_pow, Nat.testBit_to_div_mod]
  simp
  omega

/-- Claim C3: the wraparound-safe "has T arrived" test of `send_pulse` —
32-bit subtraction of the live `micros()` counter minus the target, testing
the sign bit — answers correctly whenever the true distance between the live
time and the target is below `2^31`: the sign bit is clear exactly when the
live time has reached or passed the target, even across counter wraparound. -/
theorem timer_has_arrived_correct (live target : ℤ) (h : |live - target| < 2 ^ 31) :
    Nano.hasArrived (live % 2 ^ 32).toNat (target % 2 ^ 32).toNat
      = decide (target ≤ live) := by
  rw [abs_lt] at h
  obtain ⟨hlo, hhi⟩ := h
  have ha' : (((live % 2 ^ 32).toNat : ℤ)) = live % 2 ^ 32 :=
    Int.toNat_of_nonneg (Int.emod_nonneg _ (by norm_num))
  have hb' : (((target % 2 ^ 32).toNat : ℤ)) = target % 2 ^ 32 :=
    Int.toNat_of_nonneg (Int.emod_nonneg _ (by norm_num))
  unfold Nano.hasArrived Nano.sub32 Nano.W32
  set s := ((live % 2 ^ 32).toNat % 2 ^ 32
    + (2 ^ 32 - (target % 2 ^ 32).toNat % 2 ^ 32)) % 2 ^ 32 with hs_def
  have hs : s < 2 ^ 32 := by omega
  have key : ((s : ℕ) : ℤ) = (live - target) % 2 ^ 32 := by omega
  rcases le_or_lt target live with hle | hlt
  · have hmod : (live - target) % 2 ^ 32 = live - target := by omega
    have hslt : s < 2 ^ 31 := by omega
    have hz : s &&& Nano.SIGN_BIT = 0 := (and_sign_eq_zero_iff s hs).mpr hslt
    rw [hz]
    simp [hle]
  · have hmod : (live - target) % 2 ^ 32 = live - target + 2 ^ 32 := by omega
    have hsge : ¬s < 2 ^ 31 := by omega
    have hnz : s &&& Nano.SIGN_BIT ≠ 0 :=
      fun hzero => hsge ((and_sign_eq_zero_iff s hs).mp hzero)
    have h1 : (s &&& Nano.SIGN_BIT == 0) = false := by simpa using hnz
    have h2 : decide (target ≤ live) = false := decide_eq_false (not_le.mpr hlt)
    rw [h1, h2]

/-- Witness for claim C3 at `live = 2`, `target = -3` (a target shortly before
a counter wraparound, live counter shortly after it). -/
theorem timer_has_arrived_correct_witness :
    |(2 : ℤ) - (-3)| < 2 ^ 31
    ∧ Nano.hasArrived ((2 : ℤ) % 2 ^ 32).toNat (((-3) : ℤ) % 2 ^ 32).toNat
        = decide ((-3 : ℤ) ≤ 2) :=
  ⟨by decide, timer_has_arrived_correct 2 (-3) (by decide)⟩

/-- Claim C7: in the trigger-driven Nano variant with travel duration
`OPEN_US` and a trigger at elapsed time 0 (direction toggled to open): the
level at elapsed 0 is 0, the level at elapsed `OPEN_US / 2` is exactly the
cosine-ease midpoint 1/2, and for every elapsed time at or past `OPEN_US` the
level is locked at 1; a second trigger toggles the direction again (the
direction alternates on every trigger), after which the level starts at 1 and
is locked at 0 once the travel duration elapses. -/
theorem trigger_transition_scenario (t : ℕ) (ht : Nano.OPEN_US ≤ t) :
    Nano.levelAt true 0 = 0
    ∧ Nano.levelAt true (Nano.OPEN_US / 2) = 1 / 2
    ∧ Nano.levelAt true t = 1
    ∧ Nano.levelAt false 0 = 1
    ∧ Nano.levelAt false t = 0
    ∧ Nano.triggerToggle false = true
    ∧ Nano.triggerToggle true = false := by
  have h0 : ¬ Nano.OPEN_US ≤ 0 := by norm_num [Nano.OPEN_US]
  have hhalf : ¬ Nano.OPEN_US ≤ Nano.OPEN_US / 2 := by norm_num [Nano.OPEN_US]
  have he0 : Nano.easeF 0 = 1 := by
    unfold Nano.easeF
    norm_num
  have hehalf : Nano.easeF (Nano.OPEN_US / 2) = 1 / 2 := by
    unfold Nano.easeF Nano.OPEN_US
    norm_num
    rw [show (500000 : ℝ) * (Real.pi / 1000000) = Real.pi / 2 by ring]
    exact Real.cos_pi_div_two
  refine ⟨?_, ?_, ?_, ?_, ?_, rfl, rfl⟩
  · rw [Nano.levelAt, if_neg h0, if_pos rfl]
    rw [he0]
    norm_num
  · rw [Nano.levelAt, if_neg hhalf, if_pos rfl]
    rw [hehalf]
    norm_num
  · rw [Nano.levelAt, if_pos ht]
    rfl
  · rw [Nano.levelAt, if_neg h0, if_neg (by simp)]
    exact he0
  · rw [Nano.levelAt, if_pos ht]
    rfl

/-- Witness for claim C7 at `t = OPEN_US = 1000000`. -/
theorem trigger_transition_scenario_witness :
    Nano.OPEN_US ≤ 1000000
    ∧ (Nano.levelAt true 0 = 0
      ∧ Nano.levelAt true (Nano.OPEN_US / 2) = 1 / 2
      ∧ Nano.levelAt true 1000000 = 1
      ∧ Nano.levelAt false 0 = 1
      ∧ Nano.levelAt false 1000000 = 0
      ∧ Nano.triggerToggle false = true
      ∧ Nano.triggerToggle true = false) :=
  ⟨by decide, trigger_transition_scenario 1000000 (by decide)⟩
